import Mathlib

/-!
# Verification of the Fairscope visualization backend (`world_map.py`)

A shallow embedding of the aggregation pipeline of `world_map.py`:
metadata extraction with defaults (`get_value`), per-sample record
building (`create_df` loop body), keep-last deduplication, date
normalization, and the map-selection callback (`select_point`).

Python floats are embedded as exact rationals (`ℚ`); pandas table cells
are embedded as the inductive `PyVal` (a number, a string, or `None`).
The external collaborators (`utils.find_tsv_files`, `utils.load_dataframe`)
only supply the input list of `(path, table, objectCount)` triples, so the
assembler is parametrized by that list.
-/

namespace WorldMap

/-- A pandas/Python cell value: a numeric value, a string, or `None`. -/
inductive PyVal where
  | pnum (q : ℚ)
  | pstr (s : String)
  | pnone
deriving DecidableEq, Repr

/-- A raw per-sample table: named columns, each a list of cell values
(first element = first row). Column lookup is by name, first match. -/
structure Table where
  cols : List (String × List PyVal)
deriving DecidableEq, Repr

/-- `df[c]` when `c in df.columns`: the named column's values, else `none`. -/
def Table.getCol (t : Table) (c : String) : Option (List PyVal) :=
  (t.cols.find? (fun p => p.1 == c)).map Prod.snd

/-- Digits-to-number accumulator, `"123"` ↦ `123`. -/
def digitsToNat (cs : List Char) : Nat :=
  cs.foldl (fun a c => a * 10 + (c.toNat - 48)) 0

/-- Parse the unsigned decimal body of a Python float literal:
digits with an optional fractional part, at least one digit overall. -/
def parseUnsigned (cs : List Char) : Option ℚ :=
  let intPart := cs.takeWhile Char.isDigit
  let rest := cs.dropWhile Char.isDigit
  match rest with
  | [] => if intPart.isEmpty then none else some (digitsToNat intPart)
  | '.' :: frac =>
    if frac.all Char.isDigit && (!intPart.isEmpty || !frac.isEmpty) then
      some ((digitsToNat intPart : ℚ) + (digitsToNat frac : ℚ) / (10 : ℚ) ^ frac.length)
    else none
  | _ => none

/-- Strip leading and trailing whitespace from a character list. -/
def trimChars (cs : List Char) : List Char :=
  ((cs.dropWhile Char.isWhitespace).reverse.dropWhile Char.isWhitespace).reverse

/-- `float(s)` on a string: strip whitespace, optional sign, decimal body.
Returns `none` where Python raises `ValueError`. -/
def parseDecimal (s : String) : Option ℚ :=
  match trimChars s.toList with
  | '-' :: rest => (parseUnsigned rest).map Neg.neg
  | '+' :: rest => parseUnsigned rest
  | cs => parseUnsigned cs

/-- `float(v)` on a cell: numbers pass through, strings are parsed,
`None` raises `TypeError` (here: `none`). -/
def pyFloat : PyVal → Option ℚ
  | .pnum q => some q
  | .pstr s => parseDecimal s
  | .pnone => none

/-- Left-to-right, non-overlapping token split of a character list, with
enough fuel to consume the input (fuel ≥ length always suffices because the
separator is non-empty at every use site). -/
def splitAux (sep : List Char) : Nat → List Char → List (List Char)
  | _, [] => [[]]
  | 0, rest => [rest]
  | fuel + 1, c :: cs =>
    if sep.isPrefixOf (c :: cs) then
      [] :: splitAux sep fuel (List.drop sep.length (c :: cs))
    else
      match splitAux sep fuel cs with
      | [] => [[c]]
      | h :: t => (c :: h) :: t

/-- Python `s.split(sep)` for a non-empty separator token. -/
def pySplit (s sep : String) : List String :=
  (splitAux sep.toList s.toList.length s.toList).map List.asString

/-- `get_value(df, column, default=1)` from `create_df` (world_map.py:42-49):
if the column exists and is non-empty, `float` its first row; a parse
failure returns `default`, and a falsy (zero) value also returns `default`
(`return value if value else default`); otherwise `default`. -/
def get_value (df : Table) (column : String) (default : ℚ) : ℚ :=
  match df.getCol column with
  | some (v :: _) =>
    match pyFloat v with
    | some value => if value = 0 then default else value
    | none => default
  | some [] => default
  | none => default

/-- One normalized sample record (the dict built at world_map.py:64-70);
`concentration` is the `"Objects/ml"` entry. `date`, `lat`, `lon` hold the
raw first-row cell, or `PyVal.pnone` when the column is absent or empty. -/
structure SampleRecord where
  filename : String
  concentration : ℚ
  date : PyVal
  lat : PyVal
  lon : PyVal
deriving DecidableEq, Repr

/-- `df[c].iloc[0] if c in df.columns and not df[c].empty else None`. -/
def firstCell (t : Table) (c : String) : PyVal :=
  match t.getCol c with
  | some (v :: _) => v
  | _ => .pnone

/-- The loop body of `create_df` (world_map.py:53-71): build one record from
one source `(table, objectCount, sourcePath)`. -/
def build (df_temp : Table) (nb_objects : ℚ) (tsv : String) : SampleRecord :=
  let acq_imaged_volume := get_value df_temp "acq_imaged_volume" 1
  let sample_dilution_factor := get_value df_temp "sample_dilution_factor" 1
  let sample_concentrated_sample_volume :=
    get_value df_temp "sample_concentrated_sample_volume" 1
  let sample_total_volume := get_value df_temp "sample_total_volume" 1
  { filename :=
      (pySplit ((pySplit tsv "/").getLastD "") "zip:").getLastD ""
    concentration :=
      (nb_objects / acq_imaged_volume) * sample_dilution_factor *
        (sample_concentrated_sample_volume / (sample_total_volume * 1000))
    date := firstCell df_temp "acq_local_datetime"
    lat := firstCell df_temp "object_lat"
    lon := firstCell df_temp "object_lon" }

/-- The duplicate-deletion comprehension of `create_df` (world_map.py:74):
`[i for n, i in enumerate(data_list) if i not in data_list[n + 1:]]` —
keep the element at position `n` exactly when no equal element occurs
strictly later. -/
def pyDedup {α : Type} [DecidableEq α] (l : List α) : List α :=
  (l.enum.filter (fun p => decide (p.2 ∉ l.drop (p.1 + 1)))).map Prod.snd

/-- Modelled from the spec: the ISO-timestamp subset of the external
`pandas.to_datetime` parser used at world_map.py:82 (the pandas library is
not part of this repository). Accepts `YYYY-MM-DD`, optionally followed by
a `T`- or space-separated time-of-day, with basic range validation, and
returns the `(year, month, day)` triple; returns `none` where pandas
raises a parse error. -/
def parseDate (s : String) : Option (Nat × Nat × Nat) :=
  match s.toList with
  | y1 :: y2 :: y3 :: y4 :: '-' :: m1 :: m2 :: '-' :: d1 :: d2 :: rest =>
    if ([y1, y2, y3, y4, m1, m2, d1, d2].all Char.isDigit) &&
        (rest.isEmpty || rest.head? == some 'T' || rest.head? == some ' ') then
      let y := digitsToNat [y1, y2, y3, y4]
      let m := digitsToNat [m1, m2]
      let d := digitsToNat [d1, d2]
      if 1 ≤ m ∧ m ≤ 12 ∧ 1 ≤ d ∧ d ≤ 31 then some (y, m, d) else none
    else none
  | _ => none

/-- Zero-pad a number to two digits. -/
def pad2 (n : Nat) : String :=
  if n < 10 then "0" ++ toString n else toString n

/-- Zero-pad a number to four digits. -/
def pad4 (n : Nat) : String :=
  if n < 10 then "000" ++ toString n
  else if n < 100 then "00" ++ toString n
  else if n < 1000 then "0" ++ toString n
  else toString n

/-- `strftime('%Y-%m-%d')`: the canonical `YYYY-MM-DD` string form. -/
def fmtDate (y m d : Nat) : String :=
  pad4 y ++ "-" ++ pad2 m ++ "-" ++ pad2 d

/-- The date-column normalization of `create_df` (world_map.py:82-83) on one
record: `pd.to_datetime` then `strftime('%Y-%m-%d')`. An absent date (`None`,
i.e. `NaT`) stays absent; a string date is parsed (`parseDate`) and rewritten
to `YYYY-MM-DD`, and a parse failure is the error pandas raises, which
aborts the whole assembly. Numeric date cells are outside the model (the
loader produces string timestamps). -/
def normalizeRecord (r : SampleRecord) : Except Unit SampleRecord :=
  match r.date with
  | .pnone => .ok r
  | .pstr s =>
    match parseDate s with
    | some (y, m, d) => .ok { r with date := .pstr (fmtDate y m d) }
    | none => .error ()
  | .pnum _ => .error ()

/-- The date-column normalization of world_map.py:82-83 applied to the whole
record list: `normalizeRecord` on every record, propagating the first pandas
parse error. -/
def normalizeAll : List SampleRecord → Except Unit (List SampleRecord)
  | [] => .ok []
  | r :: rs =>
    match normalizeRecord r with
    | .error e => .error e
    | .ok r' =>
      match normalizeAll rs with
      | .error e => .error e
      | .ok rs' => .ok (r' :: rs')

/-- `create_df` (world_map.py:33-85), parametrized by the discovered sources:
the external collaborators `utils.find_tsv_files` and `utils.load_dataframe`
supply one `(sourcePath, table, objectCount)` triple per source. Build one
record per source, delete duplicates keeping the last occurrence, then
normalize the date column; a date-normalization failure aborts the whole
assembly. -/
def create_df (sources : List (String × Table × ℚ)) :
    Except Unit (List SampleRecord) :=
  let data_list := sources.map (fun s => build s.2.1 s.2.2 s.1)
  normalizeAll (pyDedup data_list)

/-- `self.publisher` (world_map.py:19): the fixed publish topic. -/
def publisher : String := "visualization/dataset"

/-- One entry of `clickData['points']`: the plotly point index and the
`customdata` list attached to the point (the record's filename, per
`custom_data="filename"` at figure creation). -/
structure ClickPoint where
  pointNumber : Nat
  customdata : List String
deriving DecidableEq, Repr

/-- The `clickData` payload of a selection event. -/
structure ClickData where
  points : List ClickPoint
deriving DecidableEq, Repr

/-- The `select_point` callback (world_map.py:147-165) as a pure function of
the dataset and the click event. Its observable outcome is the list of
`controller.publish(topic, payload)` calls made, the new per-point opacity
vector (`none` models `no_update`), and the dataset afterwards (the callback
never writes to `self.df`). Indexing `points[0]` or `customdata[0]` on an
empty list is the `IndexError` case (`Except.error`). -/
def select_point (df : List SampleRecord) (clickData : Option ClickData) :
    Except Unit (List (String × String) × Option (List ℚ) × List SampleRecord) :=
  match clickData with
  | none => .ok ([], none, df)
  | some cd =>
    match cd.points with
    | [] => .error ()
    | selected_point :: _ =>
      match selected_point.customdata with
      | [] => .error ()
      | dataset_name :: _ =>
        let opacity := (List.range df.length).map
          (fun i => if i = selected_point.pointNumber then (1 : ℚ) else 0.5)
        .ok ([(publisher, dataset_name)], some opacity, df)

/-! ## Spec-side reference definitions and concrete fixtures -/

/-- The spec's phrasing of the duplicate-deletion step (§4.3 step 4): drop a
record exactly when a field-by-field equal record occurs later, i.e. keep the
last occurrence among exact duplicates. Stated recursively; compared with the
source comprehension `pyDedup`. -/
def keepLast {α : Type} [DecidableEq α] : List α → List α
  | [] => []
  | x :: xs => if x ∈ xs then keepLast xs else x :: keepLast xs

/-- The spec's phrasing of the filename rule (§4.2): the last path segment of
`sourcePath`, with any leading `"zip:"` archive-qualifier prefix removed
(split on the token `"zip:"` and keep the final segment). -/
def specFilename (sourcePath : String) : String :=
  (pySplit ((pySplit sourcePath "/").getLastD "") "zip:").getLastD ""

/-- The table of the spec's worked concentration example: `imagedVolume=10`,
`dilutionFactor=2`, `concentratedSampleVolume=5`, `totalSampleVolume=25`. -/
def c1table : Table :=
  ⟨[("acq_imaged_volume", [.pnum 10]),
    ("sample_dilution_factor", [.pnum 2]),
    ("sample_concentrated_sample_volume", [.pnum 5]),
    ("sample_total_volume", [.pnum 25])]⟩

/-- A table whose column `"x"` holds a non-numeric first value. -/
def cBadTable : Table := ⟨[("x", [.pstr "abc"])]⟩

/-- A table whose column `"x"` holds a numeric zero first value. -/
def cZeroTable : Table := ⟨[("x", [.pnum 0])]⟩

/-- A table whose date column holds a date-only timestamp. -/
def tDateShort : Table := ⟨[("acq_local_datetime", [.pstr "2023-07-04"])]⟩

/-- A table equal to `tDateShort` except that the raw timestamp carries a
time-of-day; it denotes the same calendar day. -/
def tDateLong : Table := ⟨[("acq_local_datetime", [.pstr "2023-07-04T10:15:00"])]⟩

/-- A table whose date column holds an unparsable timestamp. -/
def tDateBad : Table := ⟨[("acq_local_datetime", [.pstr "not-a-date"])]⟩

/-- Two sources whose built records differ only in the raw form of the same
calendar date, so they survive deduplication and only then become equal. -/
def c8sources : List (String × Table × ℚ) :=
  [("a.tsv", tDateShort, 100), ("a.tsv", tDateLong, 100)]

/-- The record both `c8sources` entries normalize to. -/
def c8rec : SampleRecord := ⟨"a.tsv", 1 / 10, .pstr "2023-07-04", .pnone, .pnone⟩

/-- A variant of `tDateShort` that also sets `acq_imaged_volume = 2`, so its
record differs from `tDateShort`'s only in the concentration field. -/
def tConc : Table :=
  ⟨[("acq_local_datetime", [.pstr "2023-07-04"]), ("acq_imaged_volume", [.pnum 2])]⟩

/-- Two sources whose records differ only in concentration. -/
def cConcSources : List (String × Table × ℚ) :=
  [("a.tsv", tDateShort, 100), ("a.tsv", tConc, 100)]

/-- The record built from `("a.tsv", tConc, 100)` after date normalization. -/
def cConcRec : SampleRecord := ⟨"a.tsv", 1 / 20, .pstr "2023-07-04", .pnone, .pnone⟩

/-- A record with an unparsable present date. -/
def cBadDateRec : SampleRecord := ⟨"b.tsv", 1 / 10, .pstr "not-a-date", .pnone, .pnone⟩

/-- Two concrete distinct records (different filenames, zero concentration). -/
def rX : SampleRecord := ⟨"x.tsv", 0, .pnone, .pnone, .pnone⟩

/-- Second of the two concrete distinct records. -/
def rY : SampleRecord := ⟨"y.tsv", 0, .pnone, .pnone, .pnone⟩

/-! ## Helper lemmas -/

section DedupLemmas

variable {α : Type} [DecidableEq α]

/-- Shifted form of the dedup comprehension: over a tail `xs` of the full list
`L`, enumerated from `n`, the kept elements are exactly `keepLast xs`. -/
lemma pyDedup_aux (xs : List α) : ∀ (n : Nat) (L : List α),
    (∀ i, L.drop (n + i + 1) = xs.drop (i + 1)) →
    ((xs.enumFrom n).filter (fun p => decide (p.2 ∉ L.drop (p.1 + 1)))).map Prod.snd
      = keepLast xs := by
  induction xs with
  | nil => intro n L _; rfl
  | cons x xs ih =>
    intro n L hL
    have h0 : L.drop (n + 1) = xs := by simpa using hL 0
    have htail : ∀ i, L.drop (n + 1 + i + 1) = xs.drop (i + 1) := by
      intro i
      have := hL (i + 1)
      have heq : n + (i + 1) + 1 = n + 1 + i + 1 := by omega
      rw [heq] at this
      simpa using this
    simp only [List.enumFrom, List.filter_cons]
    by_cases hx : x ∈ xs
    · rw [if_neg (by simp [h0, hx])]
      rw [ih (n + 1) L htail]
      simp [keepLast, hx]
    · rw [if_pos (by simp [h0, hx])]
      simp only [List.map_cons]
      rw [ih (n + 1) L htail]
      simp [keepLast, hx]

/-- The source comprehension computes the spec's keep-last policy. -/
lemma pyDedup_eq_keepLast (l : List α) : pyDedup l = keepLast l := by
  simpa [pyDedup, List.enum] using pyDedup_aux (α := α) l 0 l (fun i => by simp)

/-- `keepLast` preserves the original order: its output is a sublist. -/
lemma keepLast_sublist (l : List α) : (keepLast l).Sublist l := by
  induction l with
  | nil => simp [keepLast]
  | cons x xs ih =>
    by_cases hx : x ∈ xs
    · simp only [keepLast, if_pos hx]
      exact ih.trans (List.sublist_cons_self x xs)
    · simp only [keepLast, if_neg hx]
      exact ih.cons₂ x

/-- `keepLast` keeps exactly the values of the input. -/
lemma mem_keepLast (a : α) (l : List α) : a ∈ keepLast l ↔ a ∈ l := by
  induction l with
  | nil => simp [keepLast]
  | cons x xs ih =>
    by_cases hx : x ∈ xs
    · simp only [keepLast, if_pos hx, ih, List.mem_cons]
      constructor
      · exact fun h => Or.inr h
      · rintro (rfl | h)
        · exact hx
        · exact h
    · simp [keepLast, if_neg hx, ih]

/-- `keepLast` output has no duplicates. -/
lemma keepLast_nodup (l : List α) : (keepLast l).Nodup := by
  induction l with
  | nil => simp [keepLast]
  | cons x xs ih =>
    by_cases hx : x ∈ xs
    · simpa [keepLast, if_pos hx] using ih
    · simp only [keepLast, if_neg hx]
      exact List.Nodup.cons (fun h => hx ((mem_keepLast x xs).mp h)) ih

end DedupLemmas

section NormalizeLemmas

/-- Column-wide normalization fails whenever some record fails. -/
lemma normalizeAll_error (l : List SampleRecord) (r : SampleRecord)
    (hr : r ∈ l) (he : normalizeRecord r = .error ()) :
    normalizeAll l = .error () := by
  induction l with
  | nil => cases hr
  | cons a l ih =>
    rcases List.mem_cons.mp hr with rfl | hmem
    · simp [normalizeAll, he]
    · cases hfa : normalizeRecord a with
      | error e => cases e; simp [normalizeAll, hfa]
      | ok b => simp [normalizeAll, hfa, ih hmem]

/-- Column-wide normalization succeeds by normalizing each record. -/
lemma normalizeAll_cons (r : SampleRecord) (rs : List SampleRecord)
    (r' : SampleRecord) (rs' : List SampleRecord)
    (h1 : normalizeRecord r = .ok r') (h2 : normalizeAll rs = .ok rs') :
    normalizeAll (r :: rs) = .ok (r' :: rs') := by
  simp [normalizeAll, h1, h2]

end NormalizeLemmas

section GetValueLemmas

/-- `get_value` either returns the default or a nonzero parsed value. -/
lemma get_value_cases (t : Table) (c : String) (d : ℚ) :
    get_value t c d = d ∨
    ∃ v rest q, t.getCol c = some (v :: rest) ∧ pyFloat v = some q ∧ q ≠ 0 ∧
      get_value t c d = q := by
  rcases hcol : t.getCol c with _ | (_ | ⟨v, rest⟩)
  · left; simp [get_value, hcol]
  · left; simp [get_value, hcol]
  · rcases hf : pyFloat v with _ | q
    · left; simp [get_value, hcol, hf]
    · by_cases hq : q = 0
      · left; simp [get_value, hcol, hf, hq]
      · exact Or.inr ⟨v, rest, q, rfl, hf, hq, by simp [get_value, hcol, hf, hq]⟩

end GetValueLemmas

section SplitLemmas

/-- If the separator occurs nowhere in the input, the split is trivial. -/
lemma splitAux_sep_absent (sep : List Char) :
    ∀ (fuel : Nat) (cs : List Char), ¬ (sep <:+: cs) → splitAux sep fuel cs = [cs] := by
  intro fuel
  induction fuel with
  | zero => intro cs _; cases cs <;> rfl
  | succ fuel ih =>
    intro cs h
    cases cs with
    | nil => rfl
    | cons c cs =>
      have hp : ¬ sep.isPrefixOf (c :: cs) := by
        intro hpre
        exact h ((List.isPrefixOf_iff_prefix.mp hpre).isInfix)
      have hcs : ¬ (sep <:+: cs) := fun hin => h (hin.trans (List.suffix_cons c cs).isInfix)
      simp only [splitAux, if_neg hp, ih cs hcs]

/-- Each piece of a split: the first piece is a prefix of the input, and
every piece is an infix of the input. -/
lemma splitAux_struct (sep : List Char) :
    ∀ (fuel : Nat) (cs : List Char),
      (∀ h t, splitAux sep fuel cs = h :: t → h <+: cs) ∧
      (∀ l, l ∈ splitAux sep fuel cs → l <:+: cs) := by
  intro fuel
  induction fuel with
  | zero =>
    intro cs
    cases cs with
    | nil =>
      refine ⟨fun h t he => ?_, fun l hl => ?_⟩
      · injection he with h1 _
        subst h1
        exact List.nil_prefix
      · simp only [splitAux] at hl
        rcases List.mem_cons.mp hl with rfl | hl
        · exact List.nil_infix
        · cases hl
    | cons c cs =>
      refine ⟨fun h t he => ?_, fun l hl => ?_⟩
      · injection he with h1 _
        subst h1
        exact List.prefix_refl _
      · simp only [splitAux] at hl
        rcases List.mem_cons.mp hl with rfl | hl
        · exact List.infix_refl _
        · cases hl
  | succ fuel ih =>
    intro cs
    cases cs with
    | nil =>
      refine ⟨fun h t he => ?_, fun l hl => ?_⟩
      · injection he with h1 _
        subst h1
        exact List.nil_prefix
      · simp only [splitAux] at hl
        rcases List.mem_cons.mp hl with rfl | hl
        · exact List.nil_infix
        · cases hl
    | cons c cs =>
      by_cases hp : sep.isPrefixOf (c :: cs)
      · constructor
        · intro h t he
          simp only [splitAux, if_pos hp] at he
          injection he with h1 _
          subst h1
          exact List.nil_prefix
        · intro l hl
          simp only [splitAux, if_pos hp] at hl
          rcases List.mem_cons.mp hl with rfl | hl
          · exact List.nil_infix
          · exact ((ih _).2 l hl).trans (List.drop_suffix _ _).isInfix
      · cases hrec : splitAux sep fuel cs with
        | nil =>
          constructor
          · intro h t he
            simp only [splitAux, if_neg hp, hrec] at he
            injection he with h1 _
            subst h1
            exact ⟨cs, rfl⟩
          · intro l hl
            simp only [splitAux, if_neg hp, hrec] at hl
            rcases List.mem_cons.mp hl with rfl | hl
            · exact List.IsPrefix.isInfix ⟨cs, rfl⟩
            · cases hl
        | cons hh tt =>
          constructor
          · intro h t he
            simp only [splitAux, if_neg hp, hrec] at he
            injection he with h1 _
            subst h1
            exact (List.prefix_cons_inj c).mpr ((ih cs).1 hh tt hrec)
          · intro l hl
            simp only [splitAux, if_neg hp, hrec] at hl
            rcases List.mem_cons.mp hl with rfl | hl
            · exact ((List.prefix_cons_inj c).mpr ((ih cs).1 hh tt hrec)).isInfix
            · have hmem : l ∈ splitAux sep fuel cs := by
                rw [hrec]
                exact List.mem_cons_of_mem _ hl
              exact ((ih cs).2 l hmem).trans (List.suffix_cons c cs).isInfix

/-- A token-free string splits into itself alone. -/
lemma pySplit_no_token (s sep : String) (h : ¬ (sep.toList <:+: s.toList)) :
    pySplit s sep = [s] := by
  unfold pySplit
  rw [splitAux_sep_absent sep.toList _ _ h]
  cases s
  rfl

/-- Every piece of a string split is an infix of the split string. -/
lemma mem_pySplit_sub (s sep x : String) (hx : x ∈ pySplit s sep) :
    x.toList <:+: s.toList := by
  unfold pySplit at hx
  rcases List.mem_map.mp hx with ⟨cs, hcs, rfl⟩
  exact (splitAux_struct sep.toList _ s.toList).2 cs hcs

/-- `getLastD` of a non-empty list is one of its elements. -/
lemma getLastD_cons_mem {α : Type} (a : α) (l : List α) (d : α) :
    (a :: l).getLastD d ∈ a :: l := by
  rw [List.getLastD_eq_getLast?, List.getLast?_eq_getLast (a :: l) (by simp), Option.getD_some]
  exact List.getLast_mem _

/-- `keepLast` on a two-element list of distinct elements keeps both. -/
lemma keepLast_pair {α : Type} [DecidableEq α] (a b : α) (hne : a ≠ b) :
    keepLast [a, b] = [a, b] := by
  show (if a ∈ [b] then keepLast [b] else a :: keepLast [b]) = [a, b]
  rw [if_neg (by simpa using hne)]
  show a :: (if b ∈ ([] : List α) then keepLast [] else b :: keepLast []) = [a, b]
  rw [if_neg (List.not_mem_nil b)]
  rfl

end SplitLemmas

section ConcreteComputations

/-- Evaluate the builder on the `tDateShort` source. -/
lemma build_tDateShort : build tDateShort 100 "a.tsv" = c8rec := by
  simp +decide [build, c8rec, get_value, Table.getCol, pyFloat, firstCell,
    pySplit, splitAux, List.find?, tDateShort, SampleRecord.mk.injEq]
  norm_num

/-- Evaluate the builder on the `tDateLong` source. -/
lemma build_tDateLong :
    build tDateLong 100 "a.tsv"
      = ⟨"a.tsv", 1 / 10, .pstr "2023-07-04T10:15:00", .pnone, .pnone⟩ := by
  simp +decide [build, get_value, Table.getCol, pyFloat, firstCell,
    pySplit, splitAux, List.find?, tDateLong, SampleRecord.mk.injEq]
  norm_num

/-- Evaluate the builder on the `tConc` source. -/
lemma build_tConc :
    build tConc 100 "a.tsv" = ⟨"a.tsv", 1 / 20, .pstr "2023-07-04", .pnone, .pnone⟩ := by
  simp +decide [build, get_value, Table.getCol, pyFloat, firstCell,
    pySplit, splitAux, List.find?, tConc, SampleRecord.mk.injEq]
  norm_num

/-- Assembling `c8sources` yields the same record twice: the two raw dates
are distinct at dedup time and only then normalize to the same day. -/
lemma c8_compute : create_df c8sources = .ok [c8rec, c8rec] := by
  show normalizeAll (pyDedup [build tDateShort 100 "a.tsv", build tDateLong 100 "a.tsv"]) = _
  rw [build_tDateShort, build_tDateLong, pyDedup_eq_keepLast]
  have hne : c8rec
      ≠ (⟨"a.tsv", 1 / 10, .pstr "2023-07-04T10:15:00", .pnone, .pnone⟩ : SampleRecord) := by
    intro h
    have hd := congrArg SampleRecord.date h
    simp +decide [c8rec] at hd
  rw [keepLast_pair _ _ hne]
  exact normalizeAll_cons _ _ _ _ rfl (normalizeAll_cons _ _ _ _ rfl rfl)

/-- Assembling `cConcSources` retains both records: they differ only in the
concentration field. -/
lemma cConc_compute : create_df cConcSources = .ok [c8rec, cConcRec] := by
  show normalizeAll (pyDedup [build tDateShort 100 "a.tsv", build tConc 100 "a.tsv"]) = _
  rw [build_tDateShort, build_tConc, pyDedup_eq_keepLast]
  have hne : c8rec
      ≠ (⟨"a.tsv", 1 / 20, .pstr "2023-07-04", .pnone, .pnone⟩ : SampleRecord) := by
    intro h
    have hc := congrArg SampleRecord.concentration h
    simp only [c8rec] at hc
    norm_num at hc
  rw [keepLast_pair _ _ hne]
  exact normalizeAll_cons _ _ _ _ rfl (normalizeAll_cons _ _ _ _ rfl rfl)

/-- Any successful assembly arises by normalizing a duplicate-free record
list: the deduplicated pre-normalization records are pairwise distinct. -/
lemma amended_part1 (sources : List (String × Table × ℚ)) (l : List SampleRecord)
    (h : create_df sources = .ok l) :
    ∃ l₀ : List SampleRecord, l₀.Nodup ∧ normalizeAll l₀ = .ok l := by
  simp only [create_df] at h
  refine ⟨pyDedup (sources.map (fun s => build s.2.1 s.2.2 s.1)), ?_, ?_⟩
  · rw [pyDedup_eq_keepLast]
    exact keepLast_nodup _
  · exact h

end ConcreteComputations

/-! ## Claim theorems -/

/-- C1 counterexample: with the spec's own inputs — `objectCount = 100`,
`imagedVolume = 10`, `dilutionFactor = 2`, `concentratedSampleVolume = 5`,
`totalSampleVolume = 25`, each extracted exactly as claimed — the built
concentration is `(100/10)*2*(5/25000) = 1/250 = 0.004`, not the claimed
`0.008` (the spec miscomputes `100/10` as `20`). -/
theorem concentration_example_cex :
    get_value c1table "acq_imaged_volume" 1 = 10 ∧
    get_value c1table "sample_dilution_factor" 1 = 2 ∧
    get_value c1table "sample_concentrated_sample_volume" 1 = 5 ∧
    get_value c1table "sample_total_volume" 1 = 25 ∧
    (build c1table 100 "x.tsv").concentration = 1 / 250 ∧
    (1 : ℚ) / 250 ≠ 0.008 := by
  refine ⟨?_, ?_, ?_, ?_, ?_, by norm_num⟩ <;>
    simp +decide [build, get_value, Table.getCol, pyFloat, List.find?] <;> norm_num

/-- C1 (amended): for every table, object count and source path, the
concentration field of the built record equals exactly
`(objectCount / imagedVolume) * dilutionFactor *
(concentratedSampleVolume / (totalSampleVolume * 1000))`, where the four
scalars are extracted with default 1; in particular `objectCount = 100`,
`imagedVolume = 10`, `dilutionFactor = 2`, `concentratedSampleVolume = 5`,
`totalSampleVolume = 25` yields `0.004`. -/
theorem concentration_formula_amended :
    (∀ (t : Table) (n : ℚ) (p : String), (build t n p).concentration =
      (n / get_value t "acq_imaged_volume" 1) * get_value t "sample_dilution_factor" 1 *
      (get_value t "sample_concentrated_sample_volume" 1 /
        (get_value t "sample_total_volume" 1 * 1000))) ∧
    (build c1table 100 "x.tsv").concentration = 0.004 := by
  refine ⟨fun t n p => rfl, ?_⟩
  simp +decide [build, get_value, Table.getCol, pyFloat, List.find?]
  norm_num

/-- C2: the duplicate-deletion comprehension equals the spec's keep-last
policy (`keepLast`: drop a record exactly when a field-by-field equal record
occurs later), the survivors appear in their original discovery order
(sublist), the result is duplicate-free and keeps exactly the input's values;
the concrete instance `[x, y, x]` shows the policy keeps the last, not the
first, occurrence. -/
theorem dedup_keeps_last_occurrence :
    (∀ l : List SampleRecord,
      pyDedup l = keepLast l ∧ (pyDedup l).Sublist l ∧ (pyDedup l).Nodup ∧
      (∀ x, x ∈ pyDedup l ↔ x ∈ l)) ∧
    pyDedup [rX, rY, rX] = [rY, rX] := by
  constructor
  · intro l
    refine ⟨pyDedup_eq_keepLast l, ?_, ?_, ?_⟩ <;> rw [pyDedup_eq_keepLast]
    · exact keepLast_sublist l
    · exact keepLast_nodup l
    · exact fun x => mem_keepLast x l
  · rw [pyDedup_eq_keepLast]
    have hne : rY ≠ rX := by
      simp +decide [rX, rY, SampleRecord.mk.injEq]
    simp [keepLast, hne]

/-- C3: if the column is absent, has zero rows, or its first value fails
numeric parsing, `get_value` returns the default; being a total Lean
function, no exception escapes. -/
theorem extract_default_on_missing (t : Table) (c : String) (d : ℚ)
    (h : t.getCol c = none ∨ t.getCol c = some [] ∨
      ∃ v rest, t.getCol c = some (v :: rest) ∧ pyFloat v = none) :
    get_value t c d = d := by
  rcases h with h | h | ⟨v, rest, hcol, hf⟩
  · simp [get_value, h]
  · simp [get_value, h]
  · simp [get_value, hcol, hf]

/-- C3 witness: a non-numeric first value and an absent column both return
the default 7. -/
theorem extract_default_on_missing_witness :
    (∃ v rest, cBadTable.getCol "x" = some (v :: rest) ∧ pyFloat v = none) ∧
    get_value cBadTable "x" 7 = 7 ∧ get_value cBadTable "y" 7 = 7 :=
  ⟨⟨.pstr "abc", [], by decide, by decide⟩,
    extract_default_on_missing cBadTable "x" 7
      (Or.inr (Or.inr ⟨.pstr "abc", [], by decide, by decide⟩)),
    extract_default_on_missing cBadTable "y" 7 (Or.inl (by decide))⟩

/-- C4: a first value parsing to zero (falsy) yields the default, and
`get_value` never returns 0 when the default is nonzero. -/
theorem extract_default_on_zero (t : Table) (c : String) (d : ℚ) :
    (∀ v rest, t.getCol c = some (v :: rest) → pyFloat v = some 0 →
      get_value t c d = d) ∧
    (d ≠ 0 → get_value t c d ≠ 0) := by
  constructor
  · intro v rest hcol hf
    simp [get_value, hcol, hf]
  · intro hd
    rcases get_value_cases t c d with h | ⟨_, _, q, _, _, hq, h⟩
    · rw [h]; exact hd
    · rw [h]; exact hq

/-- C4 witness: a stored zero returns the default 7, never 0. -/
theorem extract_default_on_zero_witness :
    cZeroTable.getCol "x" = some [.pnum 0] ∧ pyFloat (.pnum 0) = some 0 ∧
    (7 : ℚ) ≠ 0 ∧ get_value cZeroTable "x" 7 = 7 ∧ get_value cZeroTable "x" 7 ≠ 0 :=
  ⟨by decide, by decide, by norm_num,
    (extract_default_on_zero cZeroTable "x" 7).1 (.pnum 0) [] (by decide) (by decide),
    (extract_default_on_zero cZeroTable "x" 7).2 (by norm_num)⟩

/-- C5: a record with a parsable string date is rewritten to canonical
`YYYY-MM-DD`; a record surviving dedup whose date is present but unparsable
makes the whole assembly fail; `"2023-07-04T10:15:00"` parses to
2023-07-04, which formats as `"2023-07-04"`. -/
theorem date_normalized_or_fatal :
    (∀ (r : SampleRecord) (s : String) (y m d : Nat), r.date = .pstr s →
      parseDate s = some (y, m, d) →
      normalizeRecord r = .ok { r with date := .pstr (fmtDate y m d) }) ∧
    (∀ (sources : List (String × Table × ℚ)) (r : SampleRecord) (s : String),
      r ∈ pyDedup (sources.map (fun x => build x.2.1 x.2.2 x.1)) →
      r.date = .pstr s → parseDate s = none →
      create_df sources = .error ()) ∧
    parseDate "2023-07-04T10:15:00" = some (2023, 7, 4) ∧
    fmtDate 2023 7 4 = "2023-07-04" := by
  refine ⟨?_, ?_, by decide, by decide⟩
  · intro r s y m d hr hp
    simp [normalizeRecord, hr, hp]
  · intro sources r s hmem hr hp
    exact normalizeAll_error _ r hmem (by simp [normalizeRecord, hr, hp])

/-- C5 witness: a parsable date normalizes in place; a single source with an
unparsable date aborts the assembly. -/
theorem date_normalized_or_fatal_witness :
    parseDate "2023-07-04" = some (2023, 7, 4) ∧
    normalizeRecord c8rec = .ok c8rec ∧
    parseDate "not-a-date" = none ∧
    create_df [("b.tsv", tDateBad, 100)] = .error () := by
  have hmem : build tDateBad 100 "b.tsv" ∈
      pyDedup ([("b.tsv", tDateBad, 100)].map (fun x => build x.2.1 x.2.2 x.1)) := by
    rw [pyDedup_eq_keepLast]
    simp [keepLast]
  exact ⟨by decide,
    date_normalized_or_fatal.1 c8rec "2023-07-04" 2023 7 4 rfl (by decide),
    by decide,
    date_normalized_or_fatal.2.1 [("b.tsv", tDateBad, 100)] (build tDateBad 100 "b.tsv")
      "not-a-date" hmem rfl (by decide)⟩

/-- C6: the record's filename is the last path segment of the source path
with any leading `"zip:"` archive qualifier removed (split on the token and
keep the final segment); a path containing no `"zip:"` token keeps its last
segment unchanged, and `"archive.zip:sample_001.tsv"` yields
`"sample_001.tsv"`. -/
theorem build_filename_rule :
    (∀ (t : Table) (n : ℚ) (p : String), (build t n p).filename = specFilename p) ∧
    (∀ (t : Table) (n : ℚ) (p : String), ¬ ("zip:".toList <:+: p.toList) →
      (build t n p).filename = (pySplit p "/").getLastD "") ∧
    specFilename "archive.zip:sample_001.tsv" = "sample_001.tsv" := by
  refine ⟨fun t n p => rfl, fun t n p h => ?_, by decide⟩
  show (pySplit ((pySplit p "/").getLastD "") "zip:").getLastD "" = (pySplit p "/").getLastD ""
  have hb : ¬ ("zip:".toList <:+: ((pySplit p "/").getLastD "").toList) := by
    cases hsp : pySplit p "/" with
    | nil =>
      intro hin
      have := List.eq_nil_of_infix_nil hin
      simp at this
    | cons a l =>
      intro hin
      exact h (hin.trans (mem_pySplit_sub p "/" _ (hsp ▸ getLastD_cons_mem a l "")))
  rw [pySplit_no_token _ _ hb]
  rfl

/-- C6 witness: a zip-free path keeps its last segment. -/
theorem build_filename_rule_witness :
    ¬ ("zip:".toList <:+: "data/export/sample_002.tsv".toList) ∧
    (build c1table 100 "data/export/sample_002.tsv").filename =
      (pySplit "data/export/sample_002.tsv" "/").getLastD "" :=
  ⟨by decide, build_filename_rule.2.1 c1table 100 _ (by decide)⟩

/-- C7: on a well-formed selection event for a valid index `i`, the callback
publishes exactly one `(fixed topic, filename of record i)` pair, recomputes
the presentation opacity vector, and leaves the dataset unchanged. -/
theorem select_point_notifies (df : List SampleRecord) (i : Nat) (hi : i < df.length)
    (cd : ClickData) (p : ClickPoint)
    (hp : cd.points.head? = some p) (hnum : p.pointNumber = i)
    (hdata : p.customdata.head? = some ((df.get ⟨i, hi⟩).filename)) :
    select_point df (some cd) =
      .ok ([(publisher, (df.get ⟨i, hi⟩).filename)],
        some ((List.range df.length).map fun j => if j = i then (1 : ℚ) else 0.5),
        df) := by
  rcases cd with ⟨pts⟩
  rcases pts with _ | ⟨p', rest⟩
  · simp at hp
  · simp only [List.head?_cons, Option.some.injEq] at hp
    subst hp
    rcases hd : p'.customdata with _ | ⟨d0, drest⟩
    · rw [hd] at hdata
      simp at hdata
    · rw [hd] at hdata
      simp only [List.head?_cons, Option.some.injEq] at hdata
      subst hdata
      subst hnum
      simp [select_point, hd]

/-- C7 witness: clicking index 1 of a two-record dataset publishes its
filename once on the fixed topic and leaves the dataset unchanged. -/
theorem select_point_notifies_witness :
    (1 : Nat) < ([rX, rY] : List SampleRecord).length ∧
    select_point [rX, rY] (some ⟨[⟨1, ["y.tsv"]⟩]⟩) =
      .ok ([(publisher, "y.tsv")], some [(0.5 : ℚ), 1], [rX, rY]) :=
  ⟨by decide,
    select_point_notifies [rX, rY] 1 (by decide) ⟨[⟨1, ["y.tsv"]⟩]⟩ ⟨1, ["y.tsv"]⟩
      rfl rfl rfl⟩

/-- C8 counterexample: two sources carrying the same calendar day in
different raw forms survive dedup (which runs before date normalization) and
normalize to field-identical records, so the final dataset contains two
pairwise-equal records. -/
theorem dedup_invariant_cex :
    create_df c8sources = .ok [c8rec, c8rec] ∧
    ¬ ([c8rec, c8rec] : List SampleRecord).Nodup :=
  ⟨c8_compute, by simp⟩

/-- C8 (amended): the dedup invariant holds of the records as deduplicated,
before date normalization — every successful assembly is the normalization
of a duplicate-free record list (normalization may then merge raw-date
variants into equal records); two records differing only in concentration
are both retained. -/
theorem dedup_invariant_amended :
    (∀ (sources : List (String × Table × ℚ)) (l : List SampleRecord),
      create_df sources = .ok l →
      ∃ l₀ : List SampleRecord, l₀.Nodup ∧ normalizeAll l₀ = .ok l) ∧
    create_df cConcSources = .ok [c8rec, cConcRec] ∧
    c8rec.concentration ≠ cConcRec.concentration ∧
    c8rec.filename = cConcRec.filename ∧ c8rec.date = cConcRec.date ∧
    c8rec.lat = cConcRec.lat ∧ c8rec.lon = cConcRec.lon := by
  refine ⟨amended_part1, cConc_compute, ?_, rfl, rfl, rfl, rfl⟩
  show (1 : ℚ) / 10 ≠ 1 / 20
  norm_num

/-- C8 witness: the duplicated final dataset of the counterexample still
arises from a duplicate-free pre-normalization list. -/
theorem dedup_invariant_amended_witness :
    ∃ l₀ : List SampleRecord, l₀.Nodup ∧ normalizeAll l₀ = .ok [c8rec, c8rec] :=
  dedup_invariant_amended.1 c8sources [c8rec, c8rec] c8_compute

/-- C9: with a nonzero default the extractor never returns zero; with the
builder's default 1 both concentration denominators (`imagedVolume` and
`totalSampleVolume * 1000`) are nonzero, so the formula never divides by
zero. -/
theorem extract_nonzero_denominators (t : Table) (c : String) (d : ℚ) (hd : d ≠ 0) :
    get_value t c d ≠ 0 ∧
    get_value t "acq_imaged_volume" 1 ≠ 0 ∧
    get_value t "sample_total_volume" 1 * 1000 ≠ 0 := by
  have key : ∀ (c' : String) (d' : ℚ), d' ≠ 0 → get_value t c' d' ≠ 0 := by
    intro c' d' hd'
    rcases get_value_cases t c' d' with h | ⟨_, _, q, _, _, hq, h⟩ <;> rw [h]
    · exact hd'
    · exact hq
  exact ⟨key c d hd, key _ 1 one_ne_zero,
    mul_ne_zero (key _ 1 one_ne_zero) (by norm_num)⟩

/-- C9 witness: even on a stored zero, a nonzero default keeps the result
nonzero. -/
theorem extract_nonzero_denominators_witness :
    (7 : ℚ) ≠ 0 ∧ get_value cZeroTable "x" 7 ≠ 0 :=
  ⟨by norm_num, (extract_nonzero_denominators cZeroTable "x" 7 (by norm_num)).1⟩

/-- C10: a null click event publishes nothing, computes no opacity vector
(`no_update`), and leaves the dataset unchanged. -/
theorem select_point_null_no_update :
    ∀ df : List SampleRecord, select_point df none = .ok ([], none, df) :=
  fun _ => rfl

end WorldMap
